import Mathlib

/-!
Verification of the `four-cc` crate (`src/lib.rs`) against its specification.

The crate defines `pub struct FourCC(pub [u8; 4])` together with:
  * `From<&[u8; 4]>`, `From<&[u8]>` (panicking on short slices),
  * `From<u32>` / `From<FourCC> for u32` (big-endian),
  * `fmt::Display` (UTF-8 text, or `escape_default` fallback) and `fmt::Debug`,
  * derived `PartialEq`, `Eq`, `Hash`,
  * serde adapters: `FromStr` (via the slice conversion) and `Serialize`
    (via `collect_str`, i.e. the `Display` rendering).

Bytes are modelled as `Nat` (values below 256 where it matters), byte strings
as `List Nat`, panics as `Option.none`, and `fmt::Result` as `FmtResult`.
-/

/-- Embeds `pub struct FourCC(pub [u8; 4])`: the four payload bytes, in order.
`FourCC.mk` plays the role of the tuple-struct constructor `FourCC([_, _, _, _])`. -/
structure FourCC where
  b0 : Nat
  b1 : Nat
  b2 : Nat
  b3 : Nat
deriving DecidableEq

/-- The four bytes of a `FourCC` in order, i.e. the array `self.0`. -/
def FourCC.byteList (c : FourCC) : List Nat := [c.b0, c.b1, c.b2, c.b3]

/-- Embeds `impl From<u32> for FourCC`:
`FourCC([(val >> 24 & 0xff) as u8, (val >> 16 & 0xff) as u8, (val >> 8 & 0xff) as u8, (val & 0xff) as u8])`
(the `as u8` casts are lossless after the `& 0xff` masks). -/
def FourCC.fromU32 (val : Nat) : FourCC :=
  FourCC.mk ((val >>> 24) &&& 0xff) ((val >>> 16) &&& 0xff)
            ((val >>> 8) &&& 0xff) (val &&& 0xff)

/-- Embeds `impl From<FourCC> for u32`:
`(val.0[0] as u32) << 24 & 0xff000000 | (val.0[1] as u32) << 16 & 0x00ff0000 |
 (val.0[2] as u32) << 8 & 0x0000ff00 | (val.0[3] as u32) & 0x000000ff`. -/
def FourCC.toU32 (c : FourCC) : Nat :=
  ((c.b0 <<< 24) &&& 0xff000000) ||| ((c.b1 <<< 16) &&& 0x00ff0000) |||
  ((c.b2 <<< 8) &&& 0x0000ff00) ||| (c.b3 &&& 0x000000ff)

/-- Mask with `0xff` is reduction mod `2 ^ 8`. -/
theorem land_ff (x : Nat) : x &&& 0xff = x % 2 ^ 8 := by
  rw [show (0xff : Nat) = 2 ^ 8 - 1 by norm_num, Nat.and_pow_two_sub_one_eq_mod]

/-- A shifted byte mask keeps exactly the low 8 bits of the shifted operand. -/
theorem land_shifted_mask (x k : Nat) :
    (x <<< k) &&& ((2 ^ 8 - 1) <<< k) = (x % 2 ^ 8) <<< k := by
  apply Nat.eq_of_testBit_eq
  intro j
  simp only [Nat.testBit_land, Nat.testBit_shiftLeft, Nat.testBit_mod_two_pow,
    Nat.testBit_two_pow_sub_one]
  by_cases h : k ≤ j <;> simp [ge_iff_le, h, Bool.and_comm]

/-- Arithmetic normal form of `FourCC.fromU32`: big-endian byte decomposition. -/
theorem fromU32_eq (v : Nat) :
    FourCC.fromU32 v =
      FourCC.mk (v / 2 ^ 24 % 2 ^ 8) (v / 2 ^ 16 % 2 ^ 8) (v / 2 ^ 8 % 2 ^ 8) (v % 2 ^ 8) := by
  unfold FourCC.fromU32
  rw [land_ff, land_ff, land_ff, land_ff,
    Nat.shiftRight_eq_div_pow, Nat.shiftRight_eq_div_pow, Nat.shiftRight_eq_div_pow]

/-- Arithmetic normal form of `FourCC.toU32` on genuine bytes: big-endian recomposition. -/
theorem toU32_eq (b0 b1 b2 b3 : Nat)
    (h0 : b0 < 2 ^ 8) (h1 : b1 < 2 ^ 8) (h2 : b2 < 2 ^ 8) (h3 : b3 < 2 ^ 8) :
    FourCC.toU32 (FourCC.mk b0 b1 b2 b3) =
      2 ^ 24 * b0 + 2 ^ 16 * b1 + 2 ^ 8 * b2 + b3 := by
  show ((b0 <<< 24) &&& 0xff000000) ||| ((b1 <<< 16) &&& 0x00ff0000) |||
      ((b2 <<< 8) &&& 0x0000ff00) ||| (b3 &&& 0x000000ff) = _
  rw [show (0xff000000 : Nat) = (2 ^ 8 - 1) <<< 24 by norm_num [Nat.shiftLeft_eq],
    show (0x00ff0000 : Nat) = (2 ^ 8 - 1) <<< 16 by norm_num [Nat.shiftLeft_eq],
    show (0x0000ff00 : Nat) = (2 ^ 8 - 1) <<< 8 by norm_num [Nat.shiftLeft_eq],
    land_ff, land_shifted_mask, land_shifted_mask, land_shifted_mask,
    Nat.mod_eq_of_lt h0, Nat.mod_eq_of_lt h1, Nat.mod_eq_of_lt h2, Nat.mod_eq_of_lt h3,
    Nat.shiftLeft_eq, Nat.shiftLeft_eq, Nat.shiftLeft_eq,
    Nat.lor_assoc, Nat.lor_assoc,
    mul_comm b0 (2 ^ 24), mul_comm b1 (2 ^ 16), mul_comm b2 (2 ^ 8),
    ← Nat.mul_add_lt_is_or h3 b2,
    ← Nat.mul_add_lt_is_or (show 2 ^ 8 * b2 + b3 < 2 ^ 16 by omega) b1,
    ← Nat.mul_add_lt_is_or (show 2 ^ 16 * b1 + (2 ^ 8 * b2 + b3) < 2 ^ 24 by omega) b0]
  ring

/-- C1: for every 32-bit value `v`, `u32::from(FourCC::from(v)) == v`, and for every
byte array `b`, `FourCC::from(u32::from(FourCC(b))) == FourCC(b)`. -/
theorem claim1_int_roundtrip (v : Nat) (hv : v < 2 ^ 32)
    (b0 b1 b2 b3 : Nat) (h0 : b0 < 2 ^ 8) (h1 : b1 < 2 ^ 8) (h2 : b2 < 2 ^ 8) (h3 : b3 < 2 ^ 8) :
    FourCC.toU32 (FourCC.fromU32 v) = v ∧
    FourCC.fromU32 (FourCC.toU32 (FourCC.mk b0 b1 b2 b3)) = FourCC.mk b0 b1 b2 b3 := by
  constructor
  · rw [fromU32_eq, toU32_eq _ _ _ _ (Nat.mod_lt _ (by norm_num)) (Nat.mod_lt _ (by norm_num))
      (Nat.mod_lt _ (by norm_num)) (Nat.mod_lt _ (by norm_num))]
    omega
  · rw [toU32_eq _ _ _ _ h0 h1 h2 h3, fromU32_eq, FourCC.mk.injEq]
    refine ⟨?_, ?_, ?_, ?_⟩ <;> omega

/-- Witness for C1 at `v = 0x41424344` and bytes `[0x41, 0x42, 0x43, 0x44]`. -/
theorem claim1_int_roundtrip_witness :
    FourCC.toU32 (FourCC.fromU32 0x41424344) = 0x41424344 ∧
    FourCC.fromU32 (FourCC.toU32 (FourCC.mk 0x41 0x42 0x43 0x44)) =
      FourCC.mk 0x41 0x42 0x43 0x44 :=
  claim1_int_roundtrip 0x41424344 (by norm_num) 0x41 0x42 0x43 0x44
    (by norm_num) (by norm_num) (by norm_num) (by norm_num)

/-- C2: the integer conversions are big-endian and total: `FourCC::from(v)` has
byte 0 = bits 31-24, byte 1 = bits 23-16, byte 2 = bits 15-8, byte 3 = bits 7-0;
`u32::from` puts byte 0 in the most significant position; and the example
`[0x41, 0x42, 0x43, 0x44] <-> 0x41424344` converts both ways. -/
theorem claim2_big_endian (v : Nat) (hv : v < 2 ^ 32)
    (b0 b1 b2 b3 : Nat) (h0 : b0 < 2 ^ 8) (h1 : b1 < 2 ^ 8) (h2 : b2 < 2 ^ 8) (h3 : b3 < 2 ^ 8) :
    ((FourCC.fromU32 v).b0 = v / 2 ^ 24 ∧ (FourCC.fromU32 v).b1 = v / 2 ^ 16 % 2 ^ 8 ∧
     (FourCC.fromU32 v).b2 = v / 2 ^ 8 % 2 ^ 8 ∧ (FourCC.fromU32 v).b3 = v % 2 ^ 8) ∧
    FourCC.toU32 (FourCC.mk b0 b1 b2 b3) = 2 ^ 24 * b0 + 2 ^ 16 * b1 + 2 ^ 8 * b2 + b3 ∧
    FourCC.toU32 (FourCC.mk 0x41 0x42 0x43 0x44) = 0x41424344 ∧
    FourCC.fromU32 0x41424344 = FourCC.mk 0x41 0x42 0x43 0x44 := by
  refine ⟨?_, toU32_eq _ _ _ _ h0 h1 h2 h3, by decide, by decide⟩
  rw [fromU32_eq]
  exact ⟨by simp only []; omega, rfl, rfl, rfl⟩

/-- Witness for C2 at `v = 0xDEADBEEF` and bytes `[1, 2, 3, 4]`. -/
theorem claim2_big_endian_witness :
    ((FourCC.fromU32 0xDEADBEEF).b0 = 0xDEADBEEF / 2 ^ 24 ∧
     (FourCC.fromU32 0xDEADBEEF).b1 = 0xDEADBEEF / 2 ^ 16 % 2 ^ 8 ∧
     (FourCC.fromU32 0xDEADBEEF).b2 = 0xDEADBEEF / 2 ^ 8 % 2 ^ 8 ∧
     (FourCC.fromU32 0xDEADBEEF).b3 = 0xDEADBEEF % 2 ^ 8) ∧
    FourCC.toU32 (FourCC.mk 1 2 3 4) = 2 ^ 24 * 1 + 2 ^ 16 * 2 + 2 ^ 8 * 3 + 4 ∧
    FourCC.toU32 (FourCC.mk 0x41 0x42 0x43 0x44) = 0x41424344 ∧
    FourCC.fromU32 0x41424344 = FourCC.mk 0x41 0x42 0x43 0x44 :=
  claim2_big_endian 0xDEADBEEF (by norm_num) 1 2 3 4
    (by norm_num) (by norm_num) (by norm_num) (by norm_num)

/-- Embeds `impl From<&[u8]> for FourCC`:
`FourCC([buf[0], buf[1], buf[2], buf[3]])`. Each index expression panics when the
slice is too short; a panic is modelled as `Option.none`. -/
def FourCC.fromSlice (buf : List Nat) : Option FourCC := do
  let a ← buf[0]?
  let b ← buf[1]?
  let c ← buf[2]?
  let d ← buf[3]?
  some (FourCC.mk a b c d)

/-- Embeds the result of `<FourCC as core::str::FromStr>::from_str` (`type Err = u32`):
either a parse outcome, or (`Option.none` at the outer layer) a panic. -/
inductive ParseResult where
  | ok (c : FourCC)
  | err (e : Nat)
deriving DecidableEq

/-- Embeds `impl core::str::FromStr for FourCC`:
`Ok(s.as_bytes().into())`, where `.into()` is the panicking slice conversion.
The input is the raw byte sequence of the `&str`. -/
def FourCC.fromStr (s : List Nat) : Option ParseResult :=
  (FourCC.fromSlice s).map ParseResult.ok

/-- C5: the slice constructor panics (`none`) on every input of fewer than 4 bytes —
it never silently succeeds or zero-pads — and succeeds (no panic) on every input of
at least 4 bytes. -/
theorem claim5_short_slice_panics (l₃ l₄ : List Nat)
    (hshort : l₃.length < 4) (hlong : 4 ≤ l₄.length) :
    FourCC.fromSlice l₃ = none ∧ ∃ c, FourCC.fromSlice l₄ = some c := by
  constructor
  · match l₃, hshort with
    | [], _ => rfl
    | [a], _ => rfl
    | [a, b], _ => rfl
    | [a, b, c], _ => rfl
  · match l₄, hlong with
    | a :: b :: c :: d :: t, _ => exact ⟨FourCC.mk a b c d, by simp [FourCC.fromSlice]⟩

/-- Witness for C5 at the 3-byte input `[1, 2, 3]` and the 4-byte input `[1, 2, 3, 4]`. -/
theorem claim5_short_slice_panics_witness :
    FourCC.fromSlice [1, 2, 3] = none ∧ ∃ c, FourCC.fromSlice [1, 2, 3, 4] = some c :=
  claim5_short_slice_panics [1, 2, 3] [1, 2, 3, 4] (by decide) (by decide)

/-- C6: on an input of length at least 4, the slice constructor copies exactly the
first four bytes in order; in particular the first four bytes of `b"moofftyp"` give
the same value as `FourCC(*b"moof")`. -/
theorem claim6_first_four_bytes (l : List Nat) (h : 4 ≤ l.length) :
    FourCC.fromSlice l =
      some (FourCC.mk (l.get ⟨0, by omega⟩) (l.get ⟨1, by omega⟩)
        (l.get ⟨2, by omega⟩) (l.get ⟨3, by omega⟩)) ∧
    FourCC.fromSlice ([0x6d, 0x6f, 0x6f, 0x66, 0x66, 0x74, 0x79, 0x70].take 4) =
      some (FourCC.mk 0x6d 0x6f 0x6f 0x66) := by
  refine ⟨?_, by decide⟩
  match l, h with
  | a :: b :: c :: d :: t, _ => simp [FourCC.fromSlice]

/-- Witness for C6 at the 8-byte input `b"moofftyp"`. -/
theorem claim6_first_four_bytes_witness :
    FourCC.fromSlice [0x6d, 0x6f, 0x6f, 0x66, 0x66, 0x74, 0x79, 0x70] =
      some (FourCC.mk 0x6d 0x6f 0x6f 0x66) ∧
    FourCC.fromSlice ([0x6d, 0x6f, 0x6f, 0x66, 0x66, 0x74, 0x79, 0x70].take 4) =
      some (FourCC.mk 0x6d 0x6f 0x6f 0x66) := by
  have h := claim6_first_four_bytes [0x6d, 0x6f, 0x6f, 0x66, 0x66, 0x74, 0x79, 0x70] (by decide)
  exact ⟨h.1, h.2⟩

/-- Embeds the derived `PartialEq` of `FourCC`: field-wise comparison of the two
`[u8; 4]` payloads, element by element in order. -/
def FourCC.beqBytes (x y : FourCC) : Bool :=
  x.b0 == y.b0 && x.b1 == y.b1 && x.b2 == y.b2 && x.b3 == y.b3

/-- Embeds the derived `Hash` of `FourCC`: the data stream the implementation feeds
to the hasher — the length prefix of the `[u8; 4]` slice view followed by its four
bytes. Any concrete hasher is a function of this stream alone. -/
def FourCC.hashStream (x : FourCC) : List Nat :=
  4 :: [x.b0, x.b1, x.b2, x.b3]

/-- C7: equality is structural — `a == b` iff all four bytes match in order — and
whenever `a == b`, every hasher applied to the fed streams agrees: `hash(a) == hash(b)`. -/
theorem claim7_eq_hash (x y : FourCC) (hasher : List Nat → Nat) :
    (FourCC.beqBytes x y = true ↔
      (x.b0 = y.b0 ∧ x.b1 = y.b1 ∧ x.b2 = y.b2 ∧ x.b3 = y.b3)) ∧
    (FourCC.beqBytes x y = true →
      hasher (FourCC.hashStream x) = hasher (FourCC.hashStream y)) := by
  have hiff : FourCC.beqBytes x y = true ↔
      (x.b0 = y.b0 ∧ x.b1 = y.b1 ∧ x.b2 = y.b2 ∧ x.b3 = y.b3) := by
    simp [FourCC.beqBytes, and_assoc]
  refine ⟨hiff, fun h => ?_⟩
  obtain ⟨e0, e1, e2, e3⟩ := hiff.mp h
  simp [FourCC.hashStream, e0, e1, e2, e3]

/-- Witness for C7 at `FourCC(*b"uuid")` compared with itself, under the hasher
summing the stream. -/
theorem claim7_eq_hash_witness :
    FourCC.beqBytes (FourCC.mk 0x75 0x75 0x69 0x64) (FourCC.mk 0x75 0x75 0x69 0x64) = true ∧
    (fun l => l.sum) (FourCC.hashStream (FourCC.mk 0x75 0x75 0x69 0x64)) =
      (fun l => l.sum) (FourCC.hashStream (FourCC.mk 0x75 0x75 0x69 0x64)) :=
  ⟨by decide,
   (claim7_eq_hash (FourCC.mk 0x75 0x75 0x69 0x64) (FourCC.mk 0x75 0x75 0x69 0x64)
     (fun l => l.sum)).2 (by decide)⟩

/-- True when `b` is a UTF-8 continuation byte (`0x80..=0xBF`). -/
def utf8Cont (b : Nat) : Bool := 0x80 ≤ b && b ≤ 0xBF

/-- Admissible range of the second byte of a multi-byte UTF-8 sequence, which
depends on the lead byte (rejecting overlong forms, surrogates and values above
`U+10FFFF`, exactly as `core::str::from_utf8` does). -/
def utf8Second (lead b : Nat) : Bool :=
  if lead = 0xE0 then 0xA0 ≤ b && b ≤ 0xBF
  else if lead = 0xED then 0x80 ≤ b && b ≤ 0x9F
  else if lead = 0xF0 then 0x90 ≤ b && b ≤ 0xBF
  else if lead = 0xF4 then 0x80 ≤ b && b ≤ 0x8F
  else utf8Cont b

/-- Models the validity check of `std::str::from_utf8`: standard UTF-8 over the
whole byte sequence (1-byte `0x00..=0x7F`; 2-byte lead `0xC2..=0xDF`; 3-byte lead
`0xE0..=0xEF`; 4-byte lead `0xF0..=0xF4`; continuation ranges per `utf8Second`). -/
def utf8ValidBytes : List Nat → Bool
  | [] => true
  | b :: rest =>
    if b ≤ 0x7F then utf8ValidBytes rest
    else if 0xC2 ≤ b && b ≤ 0xDF then
      match rest with
      | b1 :: rest1 => utf8Cont b1 && utf8ValidBytes rest1
      | [] => false
    else if 0xE0 ≤ b && b ≤ 0xEF then
      match rest with
      | b1 :: b2 :: rest2 => utf8Second b b1 && utf8Cont b2 && utf8ValidBytes rest2
      | _ => false
    else if 0xF0 ≤ b && b ≤ 0xF4 then
      match rest with
      | b1 :: b2 :: b3 :: rest3 =>
        utf8Second b b1 && utf8Cont b2 && utf8Cont b3 && utf8ValidBytes rest3
      | _ => false
    else false

/-- Models `std::str::from_utf8`: `Ok` returns a `&str` view of the very same
bytes, `Err` carries a `Utf8Error` (its payload is irrelevant here). -/
def strFromUtf8 (l : List Nat) : Option (List Nat) :=
  if utf8ValidBytes l then some l else none

/-- Embeds the private `hexify` helper of `std::ascii::escape_default`:
`0..=9 => b'0' + b, _ => b'a' + b - 10` (lowercase hex digits). -/
def hexify (b : Nat) : Nat := if b ≤ 9 then 0x30 + b else 0x61 + b - 10

/-- Embeds `std::ascii::escape_default(c)` as the byte sequence it yields:
`\t`, `\r`, `\n`, `\\`, the two quotes with a leading backslash, printable ASCII
`0x20..=0x7e` verbatim, and `\xHH` (lowercase hex) for everything else. -/
def escapeDefault (c : Nat) : List Nat :=
  if c = 0x09 then [0x5C, 0x74]
  else if c = 0x0D then [0x5C, 0x72]
  else if c = 0x0A then [0x5C, 0x6E]
  else if c = 0x5C then [0x5C, 0x5C]
  else if c = 0x27 then [0x5C, 0x27]
  else if c = 0x22 then [0x5C, 0x22]
  else if 0x20 ≤ c && c ≤ 0x7E then [c]
  else [0x5C, 0x78, hexify (c >>> 4), hexify (c &&& 0xF)]

/-- UTF-8 encoding of `U+FFFD REPLACEMENT CHARACTER`, the substitute that
`String::from_utf8_lossy` emits for an invalid sequence. -/
def utf8Repl : List Nat := [0xEF, 0xBF, 0xBD]

/-- Models `String::from_utf8_lossy`: valid UTF-8 sequences are copied through
unchanged and each invalid subpart is replaced by `U+FFFD`. Only its behaviour
on valid (in this crate: pure ASCII) input matters below, where it is exactly
the identity, as in the standard library. -/
def fromUtf8Lossy : List Nat → List Nat
  | [] => []
  | b :: rest =>
    if b ≤ 0x7F then b :: fromUtf8Lossy rest
    else if 0xC2 ≤ b && b ≤ 0xDF then
      match h1 : rest with
      | b1 :: rest1 =>
        if utf8Cont b1 then b :: b1 :: fromUtf8Lossy rest1
        else utf8Repl ++ fromUtf8Lossy (b1 :: rest1)
      | [] => utf8Repl
    else if 0xE0 ≤ b && b ≤ 0xEF then
      match h1 : rest with
      | b1 :: rest1 =>
        if utf8Second b b1 then
          match h2 : rest1 with
          | b2 :: rest2 =>
            if utf8Cont b2 then b :: b1 :: b2 :: fromUtf8Lossy rest2
            else utf8Repl ++ fromUtf8Lossy (b2 :: rest2)
          | [] => utf8Repl
        else utf8Repl ++ fromUtf8Lossy (b1 :: rest1)
      | [] => utf8Repl
    else if 0xF0 ≤ b && b ≤ 0xF4 then
      match h1 : rest with
      | b1 :: rest1 =>
        if utf8Second b b1 then
          match h2 : rest1 with
          | b2 :: rest2 =>
            if utf8Cont b2 then
              match h3 : rest2 with
              | b3 :: rest3 =>
                if utf8Cont b3 then b :: b1 :: b2 :: b3 :: fromUtf8Lossy rest3
                else utf8Repl ++ fromUtf8Lossy (b3 :: rest3)
              | [] => utf8Repl
            else utf8Repl ++ fromUtf8Lossy (b2 :: rest2)
          | [] => utf8Repl
        else utf8Repl ++ fromUtf8Lossy (b1 :: rest1)
      | [] => utf8Repl
    else utf8Repl ++ fromUtf8Lossy rest
termination_by l => l.length
decreasing_by all_goals (subst_vars; simp [List.length]; try omega)

/-- Models `fmt::Result` together with the text written to the formatter: `ok out`
is a successful render producing `out`, `err` is `Err(fmt::Error)`. -/
inductive FmtResult where
  | ok (out : List Nat)
  | err
deriving DecidableEq

/-- Embeds `impl fmt::Display for FourCC`: on `Ok(s)` from `std::str::from_utf8`
write `s`; on `Err(_)` write the `from_utf8_lossy` view of the bytes produced by
`self.0.iter().flat_map(|b| std::ascii::escape_default(*b))`. -/
def FourCC.fmtDisplay (c : FourCC) : FmtResult :=
  match strFromUtf8 c.byteList with
  | some s => FmtResult.ok s
  | none => FmtResult.ok (fromUtf8Lossy (c.byteList.flatMap escapeDefault))

/-- Embeds `impl fmt::Debug for FourCC`:
`f.write_str("FourCC{")?; fmt::Display::fmt(self, f)?; f.write_str("}")` —
the same rendering algorithm, wrapped in `FourCC{` and `}` (bytes
`0x46 0x6F 0x75 0x72 0x43 0x43 0x7B` and `0x7D`), with errors propagated. -/
def FourCC.fmtDebug (c : FourCC) : FmtResult :=
  match FourCC.fmtDisplay c with
  | FmtResult.ok s => FmtResult.ok ([0x46, 0x6F, 0x75, 0x72, 0x43, 0x43, 0x7B] ++ s ++ [0x7D])
  | FmtResult.err => FmtResult.err

/-- Embeds `impl serde::ser::Serialize for FourCC`: `serializer.collect_str(self)`
serializes the `Display` rendering of the value. -/
def FourCC.serializeStr (c : FourCC) : FmtResult := FourCC.fmtDisplay c

/-- `String::from_utf8_lossy` is the identity on ASCII byte sequences. -/
theorem fromUtf8Lossy_ascii (l : List Nat) (h : ∀ x ∈ l, x < 0x80) :
    fromUtf8Lossy l = l := by
  induction l with
  | nil => simp [fromUtf8Lossy.eq_def]
  | cons b rest ih =>
    have hb : b ≤ 0x7F := by have := h b (by simp); omega
    rw [fromUtf8Lossy.eq_def]
    simp [hb, ih (fun x hx => h x (by simp [hx]))]

/-- Hex digits produced by `hexify` are ASCII. -/
theorem hexify_ascii (n : Nat) (h : n ≤ 15) : hexify n < 0x80 := by
  unfold hexify
  split <;> omega

/-- Every byte emitted by `escape_default` on a `u8` input is ASCII. -/
theorem escapeDefault_ascii (b : Nat) (hb : b < 256) :
    ∀ x ∈ escapeDefault b, x < 0x80 := by
  intro x hx
  have hd1 : b >>> 4 ≤ 15 := by rw [Nat.shiftRight_eq_div_pow]; omega
  have hd2 : b &&& 0xF ≤ 15 := by
    rw [show (0xF : Nat) = 2 ^ 4 - 1 by norm_num, Nat.and_pow_two_sub_one_eq_mod]; omega
  have hh1 := hexify_ascii _ hd1
  have hh2 := hexify_ascii _ hd2
  unfold escapeDefault at hx
  split_ifs at hx with h1 h2 h3 h4 h5 h6 h7
  · simp at hx; rcases hx with rfl | rfl <;> omega
  · simp at hx; rcases hx with rfl | rfl <;> omega
  · simp at hx; rcases hx with rfl | rfl <;> omega
  · simp at hx; rcases hx with rfl | rfl <;> omega
  · simp at hx; rcases hx with rfl | rfl <;> omega
  · simp at hx; rcases hx with rfl | rfl <;> omega
  · simp at h7
    simp at hx
    omega
  · simp at hx
    rcases hx with rfl | rfl | rfl | rfl <;> omega

/-- The `Display` implementation never returns `Err`: both arms of the match on
`std::str::from_utf8` end in a successful `write_str`. -/
theorem fmtDisplay_total (c : FourCC) : ∃ out, FourCC.fmtDisplay c = FmtResult.ok out := by
  unfold FourCC.fmtDisplay
  cases strFromUtf8 c.byteList <;> exact ⟨_, rfl⟩

/-- On invalid UTF-8, `Display` writes exactly the concatenated `escape_default`
expansions of the four bytes (the `from_utf8_lossy` step is the identity there,
since the escape output is pure ASCII). -/
theorem fmtDisplay_fallback (b0 b1 b2 b3 : Nat)
    (h0 : b0 < 256) (h1 : b1 < 256) (h2 : b2 < 256) (h3 : b3 < 256)
    (hv : utf8ValidBytes [b0, b1, b2, b3] = false) :
    FourCC.fmtDisplay (FourCC.mk b0 b1 b2 b3) =
      FmtResult.ok ([b0, b1, b2, b3].flatMap escapeDefault) := by
  have hascii : ∀ x ∈ [b0, b1, b2, b3].flatMap escapeDefault, x < 0x80 := by
    intro x hx
    rw [List.mem_flatMap] at hx
    obtain ⟨b, hbmem, hxb⟩ := hx
    have hblt : b < 256 := by
      simp at hbmem
      rcases hbmem with h | h | h | h <;> omega
    exact escapeDefault_ascii b hblt x hxb
  have hid := fromUtf8Lossy_ascii _ hascii
  simp [FourCC.fmtDisplay, strFromUtf8, FourCC.byteList, hv]
  simpa using hid

/-- C8: whenever the four bytes are valid UTF-8, `Display` renders exactly that
text, with no decoration; in particular `FourCC(*b"uuid")` displays as `uuid`. -/
theorem claim8_display_utf8 (c : FourCC) (h : utf8ValidBytes c.byteList = true) :
    FourCC.fmtDisplay c = FmtResult.ok c.byteList ∧
    FourCC.fmtDisplay (FourCC.mk 0x75 0x75 0x69 0x64) = FmtResult.ok [0x75, 0x75, 0x69, 0x64] :=
  ⟨by simp [FourCC.fmtDisplay, strFromUtf8, h], by decide⟩

/-- Witness for C8 at `FourCC(*b"uuid")`. -/
theorem claim8_display_utf8_witness :
    FourCC.fmtDisplay (FourCC.mk 0x75 0x75 0x69 0x64) =
      FmtResult.ok (FourCC.mk 0x75 0x75 0x69 0x64).byteList ∧
    FourCC.fmtDisplay (FourCC.mk 0x75 0x75 0x69 0x64) = FmtResult.ok [0x75, 0x75, 0x69, 0x64] :=
  claim8_display_utf8 (FourCC.mk 0x75 0x75 0x69 0x64) (by decide)

/-- C9: for every value, `Debug` produces `FourCC{` ++ the `Display` rendering ++ `}`,
through the very same rendering algorithm; e.g. `FourCC(*b"uuid")` debug-renders as
`FourCC{uuid}`. -/
theorem claim9_debug_wraps_display (c : FourCC) :
    (∃ d, FourCC.fmtDisplay c = FmtResult.ok d ∧
      FourCC.fmtDebug c =
        FmtResult.ok ([0x46, 0x6F, 0x75, 0x72, 0x43, 0x43, 0x7B] ++ d ++ [0x7D])) ∧
    FourCC.fmtDebug (FourCC.mk 0x75 0x75 0x69 0x64) =
      FmtResult.ok [0x46, 0x6F, 0x75, 0x72, 0x43, 0x43, 0x7B, 0x75, 0x75, 0x69, 0x64, 0x7D] := by
  refine ⟨?_, by decide⟩
  obtain ⟨d, hd⟩ := fmtDisplay_total c
  exact ⟨d, hd, by simp [FourCC.fmtDebug, hd]⟩

/-- C10: the escaped fallback is applied only when the whole 4-byte sequence fails
UTF-8 validation: every FourCC whose bytes are valid UTF-8 — control and null
characters included — displays as the raw unescaped bytes; in particular
`FourCC([0x75, 0x75, 0x69, 0x00])` and `FourCC([0, 0, 0, 0])` display with literal
NUL characters, not as `\xHH` escape sequences. -/
theorem claim10_no_escape_on_valid_utf8 (c : FourCC)
    (h : utf8ValidBytes c.byteList = true) :
    FourCC.fmtDisplay c = FmtResult.ok c.byteList ∧
    utf8ValidBytes [0x75, 0x75, 0x69, 0x00] = true ∧
    FourCC.fmtDisplay (FourCC.mk 0x75 0x75 0x69 0x00) = FmtResult.ok [0x75, 0x75, 0x69, 0x00] ∧
    utf8ValidBytes [0, 0, 0, 0] = true ∧
    FourCC.fmtDisplay (FourCC.mk 0 0 0 0) = FmtResult.ok [0, 0, 0, 0] ∧
    FourCC.fmtDisplay (FourCC.mk 0x75 0x75 0x69 0x00) ≠
      FmtResult.ok ([0x75] ++ [0x75] ++ [0x69] ++ [0x5C, 0x78, 0x30, 0x30]) :=
  ⟨by simp [FourCC.fmtDisplay, strFromUtf8, h],
   by decide, by decide, by decide, by decide, by decide⟩

/-- Witness for C10 at the all-NUL value `FourCC([0, 0, 0, 0])`. -/
theorem claim10_no_escape_on_valid_utf8_witness :
    FourCC.fmtDisplay (FourCC.mk 0 0 0 0) = FmtResult.ok (FourCC.mk 0 0 0 0).byteList :=
  (claim10_no_escape_on_valid_utf8 (FourCC.mk 0 0 0 0) (by decide)).1

/-- `escape_default` keeps a printable ASCII byte verbatim unless it is the
backslash or one of the two quote characters. -/
theorem escapeDefault_printable (b : Nat) (h20 : 0x20 ≤ b) (h7e : b ≤ 0x7E)
    (hbs : b ≠ 0x5C) (hq1 : b ≠ 0x27) (hq2 : b ≠ 0x22) : escapeDefault b = [b] := by
  unfold escapeDefault
  rw [if_neg (show ¬b = 0x09 by omega), if_neg (show ¬b = 0x0D by omega),
    if_neg (show ¬b = 0x0A by omega), if_neg hbs, if_neg hq1, if_neg hq2,
    if_pos (show ((0x20 ≤ b && b ≤ 0x7E) = true) by simp; exact ⟨h20, h7e⟩)]

/-- `escape_default` hex-escapes every byte that is neither printable ASCII nor
tab, LF or CR. -/
theorem escapeDefault_hex (b : Nat) (hnp : ¬(0x20 ≤ b ∧ b ≤ 0x7E))
    (h9 : b ≠ 0x09) (h10 : b ≠ 0x0A) (h13 : b ≠ 0x0D) :
    escapeDefault b = [0x5C, 0x78, hexify (b >>> 4), hexify (b &&& 0xF)] := by
  unfold escapeDefault
  rw [if_neg h9, if_neg h13, if_neg h10, if_neg (show ¬b = 0x5C by omega),
    if_neg (show ¬b = 0x27 by omega), if_neg (show ¬b = 0x22 by omega),
    if_neg (show ¬((0x20 ≤ b && b ≤ 0x7E) = true) by simpa using hnp)]

/-- C3 as stated is false: in the escaped fallback the printable ASCII byte `0x5C`
(backslash) is not rendered literally but doubled, so the rendering of
`FourCC([0x5C, 0xFF, 0x69, 0x00])` differs from the one the claim describes
(each printable byte kept verbatim, every other byte a `\xHH` escape). -/
theorem claim3_counterexample :
    utf8ValidBytes [0x5C, 0xFF, 0x69, 0x00] = false ∧
    (0x20 ≤ 0x5C ∧ (0x5C : Nat) ≤ 0x7E) ∧
    FourCC.fmtDisplay (FourCC.mk 0x5C 0xFF 0x69 0x00) =
      FmtResult.ok [0x5C, 0x5C, 0x5C, 0x78, 0x66, 0x66, 0x69, 0x5C, 0x78, 0x30, 0x30] ∧
    FourCC.fmtDisplay (FourCC.mk 0x5C 0xFF 0x69 0x00) ≠
      FmtResult.ok ([0x5C] ++ [0x5C, 0x78, 0x66, 0x66] ++ [0x69] ++ [0x5C, 0x78, 0x30, 0x30]) := by
  have heval : FourCC.fmtDisplay (FourCC.mk 0x5C 0xFF 0x69 0x00) =
      FmtResult.ok [0x5C, 0x5C, 0x5C, 0x78, 0x66, 0x66, 0x69, 0x5C, 0x78, 0x30, 0x30] := by
    rw [fmtDisplay_fallback 0x5C 0xFF 0x69 0x00 (by norm_num) (by norm_num) (by norm_num)
      (by norm_num) (by decide)]
    decide
  exact ⟨by decide, by norm_num, heval, by rw [heval]; decide⟩

/-- C3 amended: rendering never fails for any byte pattern — on invalid UTF-8 the
display falls back to the concatenated `escape_default` expansions, where printable
ASCII bytes other than backslash and the two quotes are rendered literally,
backslash and the quotes get a leading backslash, tab, LF and CR become `\t`, `\n`,
`\r`, and every remaining byte becomes a lowercase `\xHH` escape; in particular
`FourCC([0x75, 0xFF, 0x69, 0x00])` displays as `u\xffi\x00` and its debug form is
`FourCC{u\xffi\x00}`. -/
theorem claim3_amended (b0 b1 b2 b3 : Nat)
    (h0 : b0 < 256) (h1 : b1 < 256) (h2 : b2 < 256) (h3 : b3 < 256) :
    (∃ out, FourCC.fmtDisplay (FourCC.mk b0 b1 b2 b3) = FmtResult.ok out) ∧
    (utf8ValidBytes [b0, b1, b2, b3] = false →
      FourCC.fmtDisplay (FourCC.mk b0 b1 b2 b3) =
        FmtResult.ok ([b0, b1, b2, b3].flatMap escapeDefault)) ∧
    (∀ b < 256, 0x20 ≤ b → b ≤ 0x7E → b ≠ 0x5C → b ≠ 0x27 → b ≠ 0x22 →
      escapeDefault b = [b]) ∧
    (escapeDefault 0x5C = [0x5C, 0x5C] ∧ escapeDefault 0x27 = [0x5C, 0x27] ∧
     escapeDefault 0x22 = [0x5C, 0x22] ∧ escapeDefault 0x09 = [0x5C, 0x74] ∧
     escapeDefault 0x0A = [0x5C, 0x6E] ∧ escapeDefault 0x0D = [0x5C, 0x72]) ∧
    (∀ b < 256, ¬(0x20 ≤ b ∧ b ≤ 0x7E) → b ≠ 0x09 → b ≠ 0x0A → b ≠ 0x0D →
      escapeDefault b = [0x5C, 0x78, hexify (b >>> 4), hexify (b &&& 0xF)]) ∧
    FourCC.fmtDisplay (FourCC.mk 0x75 0xFF 0x69 0x00) =
      FmtResult.ok [0x75, 0x5C, 0x78, 0x66, 0x66, 0x69, 0x5C, 0x78, 0x30, 0x30] ∧
    FourCC.fmtDebug (FourCC.mk 0x75 0xFF 0x69 0x00) =
      FmtResult.ok [0x46, 0x6F, 0x75, 0x72, 0x43, 0x43, 0x7B,
        0x75, 0x5C, 0x78, 0x66, 0x66, 0x69, 0x5C, 0x78, 0x30, 0x30, 0x7D] := by
  have heval : FourCC.fmtDisplay (FourCC.mk 0x75 0xFF 0x69 0x00) =
      FmtResult.ok [0x75, 0x5C, 0x78, 0x66, 0x66, 0x69, 0x5C, 0x78, 0x30, 0x30] := by
    rw [fmtDisplay_fallback 0x75 0xFF 0x69 0x00 (by norm_num) (by norm_num) (by norm_num)
      (by norm_num) (by decide)]
    decide
  refine ⟨fmtDisplay_total _, fmtDisplay_fallback b0 b1 b2 b3 h0 h1 h2 h3,
    fun b _ h20 h7e hbs hq1 hq2 => escapeDefault_printable b h20 h7e hbs hq1 hq2,
    by decide,
    fun b _ hnp h9 h10 h13 => escapeDefault_hex b hnp h9 h10 h13, heval, ?_⟩
  simp [FourCC.fmtDebug, heval]

/-- Witness for the amended C3 at the bytes `[0x75, 0xFF, 0x69, 0x00]`. -/
theorem claim3_amended_witness :
    ∃ out, FourCC.fmtDisplay (FourCC.mk 0x75 0xFF 0x69 0x00) = FmtResult.ok out :=
  (claim3_amended 0x75 0xFF 0x69 0x00 (by norm_num) (by norm_num) (by norm_num)
    (by norm_num)).1

/-- C4 on the code as written: `from_str` never produces the explicit error the
spec requires. On the 3-byte input `"abc"` it panics (out-of-bounds index inside
the slice conversion, modelled as `none`); on the 5-byte input `"moofs"` it
silently succeeds with the first four bytes. For a well-formed 4-byte input the
parse does succeed with those bytes, and serialization reproduces the text. -/
theorem claim4_fromstr_code_behaviour :
    FourCC.fromStr [0x61, 0x62, 0x63] = none ∧
    FourCC.fromStr [0x6D, 0x6F, 0x6F, 0x66, 0x73] =
      some (ParseResult.ok (FourCC.mk 0x6D 0x6F 0x6F 0x66)) ∧
    FourCC.fromStr [0x6D, 0x6F, 0x6F, 0x66] =
      some (ParseResult.ok (FourCC.mk 0x6D 0x6F 0x6F 0x66)) ∧
    FourCC.serializeStr (FourCC.mk 0x6D 0x6F 0x6F 0x66) = FmtResult.ok [0x6D, 0x6F, 0x6F, 0x66] := by
  decide
